import Mathlib

/- Verification of the section-selection and multi-format encoding engine of
   llvm-objcopy (src/llvm-objcopy.cpp), as a shallow embedding.  Bytes and
   machine words are modelled as `Nat` with explicit reductions modulo 2^8 and
   2^64 where the C++ code truncates. -/

/-- The modulus of the C++ type `uint64_t`, that is 2^64. -/
def U64 : Nat := 18446744073709551616

/-- A section of the input object file.  Each metadata accessor of the
`SectionRef` interface used by `CopyTo` can fail with an `error_code`;
a failing read is modelled by `none`. -/
structure RawSection where
  getName : Option String
  getContents : Option (List Nat)
  getAddress : Option Nat
  isBSS : Option Bool
  isRequiredForExecution : Option Bool
deriving DecidableEq

/-- A section whose five metadata reads all succeed, is not BSS and is
required for execution (the common case in the claims). -/
def plainSection (name : String) (addr : Nat) (contents : List Nat) : RawSection :=
  { getName := some name
    getContents := some contents
    getAddress := some addr
    isBSS := some false
    isRequiredForExecution := some true }

/-- The fatal failures of `ObjectCopyBase::CopyTo` (each is an early `return`
that skips `Out.keep()`, so the destination is not committed). -/
inductive CopyError where
  | sectionReadError
  | gapOrderError
  | gapTooLargeError
deriving DecidableEq

/-- Outcome of `CopyTo`: no output file at all (the object pointer was null),
an aborted copy (destination opened but not kept), or a committed (kept)
output with its contents. -/
inductive CopyResult (α : Type) where
  | noFile
  | aborted (e : CopyError)
  | committed (out : List α)
deriving DecidableEq

/-- The condition of the `continue` at lines 104-108 of llvm-objcopy.cpp:
the section is skipped iff it is not required for execution, or is BSS, or
has empty contents. -/
def selectorRejects (required bss : Bool) (contents : List Nat) : Bool :=
  !required || bss || contents.length == 0

/-- The section loop of `ObjectCopyBase::CopyTo` (lines 89-132).
`pr` is the virtual `PrintSection`, `fg` the virtual `FillGap`, and
`fillGaps` the `mFillGaps` flag.  The output is the list of emitted tokens;
an `Except.error` models an early `return` before `Out.keep()`. -/
def copyLoop {α : Type} (pr : String → List Nat → Nat → List α)
    (fg : Nat → Nat → List α) (fillGaps : Bool) :
    List RawSection → Bool → Nat → Except CopyError (List α)
  | [], _, _ => .ok []
  | s :: rest, fillNextGap, lastAddress =>
    match s.getName with
    | none => .error .sectionReadError
    | some name =>
      match s.getContents with
      | none => .error .sectionReadError
      | some contents =>
        match s.getAddress with
        | none => .error .sectionReadError
        | some sectionAddress =>
          match s.isBSS with
          | none => copyLoop pr fg fillGaps rest fillNextGap lastAddress
          | some bss =>
            match s.isRequiredForExecution with
            | none => copyLoop pr fg fillGaps rest fillNextGap lastAddress
            | some required =>
              if selectorRejects required bss contents then
                copyLoop pr fg fillGaps rest fillNextGap lastAddress
              else
                let a := sectionAddress % U64
                let gapStep : Except CopyError (List α) :=
                  if fillNextGap then
                    if a < lastAddress then .error .gapOrderError
                    else if a = lastAddress then .ok []
                    else if a - lastAddress > 65536 then .error .gapTooLargeError
                    else .ok (fg 0 (a - lastAddress))
                  else .ok []
                match gapStep with
                | .error e => .error e
                | .ok gapOut =>
                  match copyLoop pr fg fillGaps rest
                      (if fillGaps then true else fillNextGap)
                      (if fillGaps then (a + contents.length) % U64 else lastAddress) with
                  | .error e => .error e
                  | .ok out => .ok (gapOut ++ pr name contents a ++ out)

/-- `ObjectCopyBase::CopyTo` (lines 71-135): a null object is a no-op with no
destination created; otherwise the loop runs starting with `FillNextGap`
false, and on success the destination is kept. -/
def CopyTo {α : Type} (pr : String → List Nat → Nat → List α)
    (fg : Nat → Nat → List α) (fillGaps : Bool)
    (o : Option (List RawSection)) : CopyResult α :=
  match o with
  | none => .noFile
  | some ss =>
    match copyLoop pr fg fillGaps ss false 0 with
    | .ok out => .committed out
    | .error e => .aborted e

/-- Two's-complement negation of an 8-bit accumulator: `(unsigned char)(-Sum)`. -/
def chk (s : Nat) : Nat := (256 - s % 256) % 256

/-- Checksum of an Extended Linear Address record:
`Sum = 6 + (Base & 0xff) + ((Base >> 8) & 0xff)`, emitted as `-Sum`. -/
def elaChecksum (base : Nat) : Nat :=
  chk (6 + base % 256 + base / 256 % 256)

/-- Checksum of a data record: the accumulator starts at
`Size + (LineAddr & 0xff) + ((LineAddr >> 8) & 0xff)` and adds every data
byte; the emitted byte is `-Sum` truncated to 8 bits. -/
def dataChecksum (size lineAddr : Nat) (chunk : List Nat) : Nat :=
  chk (size + lineAddr % 256 + lineAddr / 256 % 256 + chunk.sum)

/-- One emitted line of `ObjectCopyIntelHex::PrintSection`, at the level of
its printed fields: the comment line, an Extended Linear Address record
`:02000004<base><checksum>`, or a data record
`:<size><addr16>00<bytes><checksum>`. -/
inductive HexLine where
  | comment (name : String) (addr : Nat)
  | ela (base : Nat) (checksum : Nat)
  | data (size : Nat) (addr16 : Nat) (bytes : List Nat) (checksum : Nat)
deriving DecidableEq

/-- The 16-byte-chunk loop of `ObjectCopyIntelHex::PrintSection`
(lines 164-187), with `fuel` an upper bound on the number of remaining bytes
so that the recursion is structural.  `lineAddr` is the current
`SectionAddress + addr` reduced mod 2^64 and `lastBase` the current
`LastBaseAddr`. -/
def ihxLoop : Nat → List Nat → Nat → Nat → List HexLine
  | _, [], _, _ => []
  | 0, _ :: _, _, _ => []
  | fuel + 1, b :: bs, lineAddr, lastBase =>
    let bytes := b :: bs
    let base := lineAddr / 65536
    let size := min 16 bytes.length
    let dline := HexLine.data size (lineAddr % 65536)
      ((bytes.take 16).map (· % 256)) (dataChecksum size lineAddr (bytes.take 16))
    let rest := ihxLoop fuel (bytes.drop 16) ((lineAddr + 16) % U64) base
    if lastBase = base then dline :: rest
    else HexLine.ela base (elaChecksum base) :: dline :: rest

/-- `ObjectCopyIntelHex::PrintSection` (lines 154-188): the comment line,
then the data lines; `LastBaseAddr` is a local variable initialized to
`UINT64_MAX` at every call. -/
def intelHexPrint (name : String) (contents : List Nat) (sectionAddress : Nat) :
    List HexLine :=
  HexLine.comment name sectionAddress ::
    ihxLoop contents.length contents (sectionAddress % U64) (U64 - 1)

/-- The base values of the Extended Linear Address records of a line list,
in emission order. -/
def elaBases : List HexLine → List Nat
  | [] => []
  | HexLine.ela b _ :: rest => b :: elaBases rest
  | _ :: rest => elaBases rest

/-- Exactly `w` hex digit values of `n`, most significant first (the
rendering of a number known to fit in `w` digits). -/
def fixedDigits : Nat → Nat → List Nat
  | 0, _ => []
  | w + 1, n => fixedDigits w (n / 16) ++ [n % 16]

/-- Number of hex digits of `n` (1 for 0), with enough fuel; `digitCount n n`
is always exact. -/
def digitCount : Nat → Nat → Nat
  | 0, _ => 1
  | fuel + 1, n => if n < 16 then 1 else digitCount fuel (n / 16) + 1

/-- The hex digit values printed by `printf`'s `%0<w>llx`: `w` is a minimum
field width, zero-padded, never a truncation — a value needing more than `w`
digits prints all of its digits. -/
def printfHexMin (w n : Nat) : List Nat :=
  fixedDigits (max w (digitCount n n)) n

/-- The hex digit values printed after the `:` of a record line, following
the format strings at lines 172 and 178-186: the Extended Linear Address
record prints `02 0000 04`, then the base with `%04llx` (minimum width 4),
then the checksum with `%02llx`; a data record prints the size with `%02llx`,
the low 16 address bits with `%04llx`, `00`, each data byte with `%02llx`,
and the checksum.  The comment line is not a record. -/
def lineDigits : HexLine → Option (List Nat)
  | HexLine.comment _ _ => none
  | HexLine.ela base c =>
      some ([0, 2, 0, 0, 0, 0, 0, 4] ++ printfHexMin 4 base ++ printfHexMin 2 c)
  | HexLine.data size a16 bytes c =>
      some (printfHexMin 2 size ++ printfHexMin 4 a16 ++ [0, 0] ++
        (bytes.map (printfHexMin 2)).flatten ++ printfHexMin 2 c)

/-- Grouping a hex digit sequence into byte values, two digits per byte;
`none` when the digit count is odd and no byte decomposition exists. -/
def digitPairs : List Nat → Option (List Nat)
  | [] => some []
  | [_] => none
  | d1 :: d2 :: rest => (digitPairs rest).map ((16 * d1 + d2) :: ·)

/-- The byte values carried by a record line as printed: its hex digits
after the `:`, grouped in twos.  `none` for the comment line, and for a
record whose digit count is odd (which happens when an Extended Linear
Address base needs an odd number of digits beyond its 4-digit field). -/
def lineBytes (l : HexLine) : Option (List Nat) :=
  (lineDigits l).bind digitPairs

/-- A byte printed with `%02x` as exactly two lowercase hex digits. -/
def byteHex (b : Nat) : String :=
  String.mk [Nat.digitChar (b % 256 / 16), Nat.digitChar (b % 16)]

/-- The per-byte loop of `ObjectCopyReadMemH::PrintSection` (lines 205-208):
one line per byte, the byte as two lowercase hex digits. -/
def readMemHBody : List Nat → String
  | [] => ""
  | b :: rest => byteHex b ++ "\n" ++ readMemHBody rest

/-- `ObjectCopyReadMemH::PrintSection` (lines 198-209): the `@` marker line
with the address in minimal-width lowercase hex (`%PRIx64`), then one line
per content byte. -/
def readMemHPrint (_name : String) (contents : List Nat) (sectionAddress : Nat) :
    String :=
  "@" ++ String.mk (Nat.toDigits 16 (sectionAddress % U64)) ++ "\n" ++
    readMemHBody contents

/-- `ObjectCopyBinary::PrintSection` (lines 223-231): the raw contents bytes
verbatim (as `unsigned char` values). -/
def binaryPrint (_name : String) (contents : List Nat) (_sectionAddress : Nat) :
    List Nat :=
  contents.map (· % 256)

/-- `ObjectCopyBinary::FillGap` (lines 233-239): `size` copies of the filler
byte. -/
def binaryFillGap (value : Nat) (size : Nat) : List Nat :=
  List.replicate size (value % 256)

/-- The binary-format copy: `mBinaryOutput` and `mFillGaps` are true. -/
def copyBinary (o : Option (List RawSection)) : CopyResult Nat :=
  CopyTo binaryPrint binaryFillGap true o

/-- The Intel HEX copy: `mFillGaps` is false, `FillGap` is the base-class
no-op. -/
def copyIntelHex (o : Option (List RawSection)) : CopyResult HexLine :=
  CopyTo (fun n c a => intelHexPrint n c a) (fun _ _ => []) false o

/-- The readmemh copy: `mFillGaps` is false, `FillGap` is the base-class
no-op; each `PrintSection` call emits one text chunk. -/
def copyReadMemH (o : Option (List RawSection)) : CopyResult String :=
  CopyTo (fun n c a => [readMemHPrint n c a]) (fun _ _ => []) false o

/-- A section on which the loop executes `continue`: its name, contents and
address reads succeed, and then either the `isBSS` read fails, or the
`isRequiredForExecution` read fails, or the selector rejects it
(not required, BSS, or empty contents). -/
def sectionSkipped (s : RawSection) : Bool :=
  s.getName.isSome && s.getContents.isSome && s.getAddress.isSome &&
    match s.isBSS, s.isRequiredForExecution with
    | none, _ => true
    | some _, none => true
    | some bss, some required => selectorRejects required bss (s.getContents.getD [])

/-- Sections presented as (name, load address, contents) triples that are
well spaced for binary gap filling from running end address `la`: each is
nonempty, starts at or after `la` and at most 65536 bytes after it, holds
byte values, and its end address fits in a `uint64_t`. -/
def okSpaced : Nat → List (String × Nat × List Nat) → Bool
  | _, [] => true
  | la, (_, a, bs) :: rest =>
    decide (bs ≠ []) && decide (la ≤ a) && decide (a - la ≤ 65536) &&
      decide (a + bs.length < U64) && decide (∀ b ∈ bs, b < 256) &&
      okSpaced (a + bs.length) rest

/-- The expected binary image from running end address `la`: for each
section in order, `sectionAddress - lastAddress` filler bytes of value 0 and
then the section's own bytes. -/
def layoutFrom : Nat → List (String × Nat × List Nat) → List Nat
  | _, [] => []
  | la, (_, a, bs) :: rest =>
    List.replicate (a - la) 0 ++ bs ++ layoutFrom (a + bs.length) rest

/-- Sum of the section lengths plus sum of the computed gaps, from running
end address `la`. -/
def totalLen : Nat → List (String × Nat × List Nat) → Nat
  | _, [] => 0
  | la, (_, a, bs) :: rest => (a - la) + bs.length + totalLen (a + bs.length) rest

/-- The tail of `main` (lines 267-287): existence check (skipped for the
stdin sentinel `"-"`), `createBinary`, the `dyn_cast` null check (which
prints a diagnostic but does not return), then `CopyTo` and `return 0`.
The result is the process exit code paired with whether a top-level
diagnostic was printed before `CopyTo` ran. -/
def mainExit (inputName : String) (inputExists openOk isObject : Bool) :
    Nat × Bool :=
  if inputName != "-" && !inputExists then (1, true)
  else if !openOk then (1, true)
  else if !isObject then (0, true)
  else (0, false)

/- ------------------------------------------------------------------ -/
/- Theorems                                                            -/
/- ------------------------------------------------------------------ -/

/-- Adding the emitted checksum to any quantity congruent to the checksum
accumulator gives 0 modulo 256. -/
theorem chk_cancel (s t : Nat) (h : s % 256 = t % 256) : (s + chk t) % 256 = 0 := by
  unfold chk
  omega

/-- Reducing each summand modulo 256 does not change a list sum modulo 256. -/
theorem mapMod_sum : ∀ l : List Nat, (l.map (· % 256)).sum % 256 = l.sum % 256
  | [] => rfl
  | b :: rest => by
    have := mapMod_sum rest
    simp only [List.map_cons, List.sum_cons]
    omega

/-- Field bytes of a data record sum to 0 modulo 256. -/
theorem dataLine_sum (size la : Nat) (chunk : List Nat) :
    ([size, la % 65536 / 256, la % 65536 % 256, 0] ++ chunk.map (· % 256) ++
      [dataChecksum size la chunk]).sum % 256 = 0 := by
  have h := mapMod_sum chunk
  simp only [List.sum_append, List.sum_cons, List.sum_nil, dataChecksum, chk]
  omega

/-- Field bytes of an Extended Linear Address record with a 16-bit base sum
to 0 modulo 256. -/
theorem elaLine_sum (base : Nat) :
    ([2, 0, 0, 4, base / 256, base % 256, elaChecksum base] : List Nat).sum % 256 = 0 := by
  simp only [elaChecksum, chk, List.sum_cons, List.sum_nil]
  omega

/-- A data record checksum is a byte. -/
theorem dataChecksum_lt (size la : Nat) (chunk : List Nat) :
    dataChecksum size la chunk < 256 := by
  unfold dataChecksum chk
  omega

/-- An Extended Linear Address record checksum is a byte. -/
theorem elaChecksum_lt (base : Nat) : elaChecksum base < 256 := by
  unfold elaChecksum chk
  omega

/-- A value below `16 ^ (w + 1)` needs at most `w + 1` hex digits, whatever
the fuel. -/
theorem digitCount_le (w : Nat) :
    ∀ (fuel n : Nat), n < 16 ^ (w + 1) → digitCount fuel n ≤ w + 1 := by
  induction w with
  | zero =>
    intro fuel n hn
    have h16 : n < 16 := by simpa using hn
    cases fuel with
    | zero => simp [digitCount]
    | succ fuel => simp [digitCount, h16]
  | succ w ih =>
    intro fuel n hn
    cases fuel with
    | zero =>
      simp only [digitCount]
      omega
    | succ fuel =>
      by_cases h16 : n < 16
      · simp only [digitCount, if_pos h16]
        omega
      · have hpow : (16 : Nat) ^ (w + 2) = 16 ^ (w + 1) * 16 := pow_succ 16 (w + 1)
        have hdiv : n / 16 < 16 ^ (w + 1) := Nat.div_lt_of_lt_mul (by omega)
        have hrec := ih fuel (n / 16) hdiv
        simp only [digitCount, if_neg h16]
        omega

/-- A byte value prints as exactly its two hex digits under `%02llx`. -/
theorem printfHexMin_two (x : Nat) (hx : x < 256) :
    printfHexMin 2 x = [x / 16 % 16, x % 16] := by
  have h : digitCount x x ≤ 2 :=
    digitCount_le 1 x x (lt_of_lt_of_le hx (by norm_num))
  unfold printfHexMin
  rw [Nat.max_eq_left h]
  rfl

/-- A 16-bit value prints as exactly its four hex digits under `%04llx`. -/
theorem printfHexMin_four (x : Nat) (hx : x < 65536) :
    printfHexMin 4 x = [x / 16 / 16 / 16 % 16, x / 16 / 16 % 16, x / 16 % 16, x % 16] := by
  have h : digitCount x x ≤ 4 :=
    digitCount_le 3 x x (lt_of_lt_of_le hx (by norm_num))
  unfold printfHexMin
  rw [Nat.max_eq_left h]
  rfl

/-- Pairing the digits of a printed byte recovers that byte. -/
theorem digitPairs_byte (x : Nat) (hx : x < 256) (rest : List Nat) :
    digitPairs (printfHexMin 2 x ++ rest) = (digitPairs rest).map (x :: ·) := by
  rw [printfHexMin_two x hx]
  have hx2 : 16 * (x / 16 % 16) + x % 16 = x := by omega
  simp [digitPairs, hx2]

/-- Pairing the digits of a printed 16-bit value recovers its two bytes. -/
theorem digitPairs_word (x : Nat) (hx : x < 65536) (rest : List Nat) :
    digitPairs (printfHexMin 4 x ++ rest) =
      (digitPairs rest).map (fun bs => x / 256 :: x % 256 :: bs) := by
  rw [printfHexMin_four x hx]
  have h1 : 16 * (x / 16 / 16 / 16 % 16) + x / 16 / 16 % 16 = x / 256 := by omega
  have h2 : 16 * (x / 16 % 16) + x % 16 = x % 256 := by omega
  simp only [List.cons_append, List.nil_append, digitPairs, h1, h2, Option.map_map]
  rfl

/-- Pairing the digits of a run of printed bytes recovers those bytes. -/
theorem digitPairs_bytes (bytes : List Nat) (h : ∀ b ∈ bytes, b < 256)
    (rest : List Nat) :
    digitPairs ((bytes.map (printfHexMin 2)).flatten ++ rest) =
      (digitPairs rest).map (fun bs => bytes ++ bs) := by
  induction bytes with
  | nil => simp
  | cons b bs ih =>
    have hb := h b (List.mem_cons_self b bs)
    have hbs := fun x hx => h x (List.mem_cons_of_mem b hx)
    rw [List.map_cons, List.flatten_cons, List.append_assoc, digitPairs_byte b hb,
      ih hbs, Option.map_map]
    rfl

/-- The byte values of a data record as the program prints it: length byte,
two address bytes, type byte 0, the data bytes, the checksum byte. -/
theorem lineBytes_data (size a16 : Nat) (bytes : List Nat) (c : Nat)
    (hs : size < 256) (ha : a16 < 65536) (hb : ∀ b ∈ bytes, b < 256)
    (hc : c < 256) :
    lineBytes (HexLine.data size a16 bytes c) =
      some ([size, a16 / 256, a16 % 256, 0] ++ bytes ++ [c]) := by
  have h00 : digitPairs (printfHexMin 2 c) = some [c] := by
    have h := digitPairs_byte c hc []
    simpa [digitPairs] using h
  have h0 : ∀ r : List Nat, digitPairs ([0, 0] ++ r) = (digitPairs r).map (0 :: ·) := by
    intro r
    simp [digitPairs]
  show digitPairs ((((printfHexMin 2 size ++ printfHexMin 4 a16) ++ [0, 0]) ++
      (bytes.map (printfHexMin 2)).flatten) ++ printfHexMin 2 c) = _
  rw [List.append_assoc, List.append_assoc, List.append_assoc,
    digitPairs_byte size hs, digitPairs_word a16 ha, h0,
    digitPairs_bytes bytes hb, h00]
  simp

/-- The byte values of an Extended Linear Address record as the program
prints it, when the base fits its 4-digit field. -/
theorem lineBytes_ela (base c : Nat) (hb : base < 65536) (hc : c < 256) :
    lineBytes (HexLine.ela base c) = some [2, 0, 0, 4, base / 256, base % 256, c] := by
  have h00 : digitPairs (printfHexMin 2 c) = some [c] := by
    have h := digitPairs_byte c hc []
    simpa [digitPairs] using h
  have hhdr : ∀ r : List Nat, digitPairs ([0, 2, 0, 0, 0, 0, 0, 4] ++ r) =
      (digitPairs r).map (fun bs => 2 :: 0 :: 0 :: 4 :: bs) := by
    intro r
    simp only [List.cons_append, List.nil_append, digitPairs, Option.map_map]
    rfl
  show digitPairs (([0, 2, 0, 0, 0, 0, 0, 4] ++ printfHexMin 4 base) ++ printfHexMin 2 c) = _
  rw [List.append_assoc, hhdr, digitPairs_word base hb, h00]
  simp

/-- Every record emitted by the Intel HEX chunk loop over a byte range lying
below address 2^32 has a zero byte sum modulo 256. -/
theorem ihxLoop_checksums (fuel : Nat) :
    ∀ (bytes : List Nat) (la lb : Nat), la + bytes.length ≤ 4294967296 →
      ∀ l ∈ ihxLoop fuel bytes la lb, ∀ bs, lineBytes l = some bs →
        bs.sum % 256 = 0 := by
  induction fuel with
  | zero =>
    intro bytes la lb _ l hl
    cases bytes <;> simp [ihxLoop] at hl
  | succ fuel ih =>
    intro bytes la lb hinv l hl bs hbs
    cases bytes with
    | nil => simp [ihxLoop] at hl
    | cons b rest =>
      have hlen1 : (b :: rest).length = rest.length + 1 := List.length_cons b rest
      have hla : la < 4294967296 := by omega
      have hbase : la / 65536 < 65536 := by omega
      have ha16 : la % 65536 < 65536 := by omega
      have hsize : min 16 (b :: rest).length < 256 := by
        have := Nat.min_le_left 16 (b :: rest).length
        omega
      have hchunk : ∀ x ∈ ((b :: rest).take 16).map (· % 256), x < 256 := by
        intro x hx
        obtain ⟨y, _, rfl⟩ := List.mem_map.mp hx
        omega
      have hrec : ∀ l2 ∈ ihxLoop fuel ((b :: rest).drop 16) ((la + 16) % U64) (la / 65536),
          ∀ bs2, lineBytes l2 = some bs2 → bs2.sum % 256 = 0 := by
        intro l2 hl2 bs2 hbs2
        by_cases hlen : (b :: rest).length ≤ 16
        · rw [List.drop_eq_nil_of_le hlen] at hl2
          simp [ihxLoop] at hl2
        · have hm : (la + 16) % U64 = la + 16 := by
            have hU : U64 = 18446744073709551616 := rfl
            exact Nat.mod_eq_of_lt (by omega)
          rw [hm] at hl2
          have hdl : ((b :: rest).drop 16).length = (b :: rest).length - 16 :=
            List.length_drop 16 (b :: rest)
          exact ih ((b :: rest).drop 16) (la + 16) (la / 65536) (by omega) l2 hl2 bs2 hbs2
      simp only [ihxLoop] at hl
      split at hl
      · rcases List.mem_cons.mp hl with rfl | hl
        · rw [lineBytes_data _ _ _ _ hsize ha16 hchunk (dataChecksum_lt _ _ _)] at hbs
          rw [Option.some_inj] at hbs
          subst hbs
          exact dataLine_sum _ la _
        · exact hrec l hl bs hbs
      · rcases List.mem_cons.mp hl with rfl | hl
        · rw [lineBytes_ela _ _ hbase (elaChecksum_lt _)] at hbs
          rw [Option.some_inj] at hbs
          subst hbs
          exact elaLine_sum _
        · rcases List.mem_cons.mp hl with rfl | hl
          · rw [lineBytes_data _ _ _ _ hsize ha16 hchunk (dataChecksum_lt _ _ _)] at hbs
            rw [Option.some_inj] at hbs
            subst hbs
            exact dataLine_sum _ la _
          · exact hrec l hl bs hbs

/-- C3 counterexample: for the one-byte section at address 2^36 the encoder
emits an Extended Linear Address record with base 0x100000; `%04llx` prints
all six digits `100000` while the checksum covers only the low 16 bits, so
the printed line's bytes are `02 00 00 04 10 00 00 fa`, summing to 16, not
0, modulo 256 — the claimed zero-sum property fails on this emitted line. -/
theorem C3_checksum_counterexample :
    HexLine.ela 1048576 250 ∈ intelHexPrint "s" [0] 68719476736
  ∧ lineBytes (HexLine.ela 1048576 250) = some [2, 0, 0, 4, 16, 0, 0, 250]
  ∧ ([2, 0, 0, 4, 16, 0, 0, 250] : List Nat).sum % 256 = 16
  ∧ ¬ ([2, 0, 0, 4, 16, 0, 0, 250] : List Nat).sum % 256 = 0 := by
  exact ⟨by decide, by decide, by decide, by decide⟩

/-- C3 amended: for every section lying entirely below address 2^32 (so that
every bank value fits its 16-bit field), every line emitted by the Intel HEX
encoder — data records and Extended Linear Address records — has byte values
(length byte, address bytes, record-type byte, data bytes, checksum byte)
summing to 0 modulo 256, the emitted checksum being the negation mod 256 of
the accumulator starting at
`size + (lineAddress & 0xff) + ((lineAddress >> 8) & 0xff)` plus the data
bytes; for line addresses at or above 2^32 the property fails because the
base field prints extra digits the checksum does not cover. -/
theorem C3_intel_hex_checksums (name : String) (contents : List Nat) (sa : Nat)
    (hsa : sa + contents.length ≤ 4294967296)
    (l : HexLine) (hl : l ∈ intelHexPrint name contents sa)
    (bs : List Nat) (hbs : lineBytes l = some bs) :
    bs.sum % 256 = 0 := by
  rcases List.mem_cons.mp hl with rfl | hl
  · simp [lineBytes, lineDigits] at hbs
  · have hsa64 : sa % U64 = sa := by
      have hU : U64 = 18446744073709551616 := rfl
      exact Nat.mod_eq_of_lt (by omega)
    rw [hsa64] at hl
    exact ihxLoop_checksums contents.length contents sa (U64 - 1) (by omega) l hl bs hbs

/-- Witness for C3 at a concrete input: the Extended Linear Address record
of the section `[0xDE, 0xAD]` at address 0x100 and its printed byte values. -/
theorem C3_intel_hex_checksums_witness :
    (256 + ([222, 173] : List Nat).length ≤ 4294967296)
  ∧ HexLine.ela 0 250 ∈ intelHexPrint "s" [222, 173] 256
  ∧ lineBytes (HexLine.ela 0 250) = some [2, 0, 0, 4, 0, 0, 250]
  ∧ ([2, 0, 0, 4, 0, 0, 250] : List Nat).sum % 256 = 0 :=
  ⟨by decide, by decide, by decide,
    C3_intel_hex_checksums "s" [222, 173] 256 (by decide) (HexLine.ela 0 250) (by decide)
      [2, 0, 0, 4, 0, 0, 250] (by decide)⟩

/-- The `LastBaseAddr` threading invariant of the Intel HEX chunk loop: an
Extended Linear Address record is emitted only when its base differs from
the previously remembered base, so the remembered value consed onto the
emitted base list forms a chain of distinct neighbours. -/
theorem ihxLoop_elaBases_chain (fuel : Nat) :
    ∀ (bytes : List Nat) (la lb : Nat),
      List.Chain' (· ≠ ·) (lb :: elaBases (ihxLoop fuel bytes la lb)) := by
  induction fuel with
  | zero =>
    intro bytes la lb
    cases bytes <;> simp [ihxLoop, elaBases]
  | succ fuel ih =>
    intro bytes la lb
    cases bytes with
    | nil => simp [ihxLoop, elaBases]
    | cons b rest =>
      simp only [ihxLoop]
      split
      · next h =>
        simpa only [elaBases, h] using ih ((b :: rest).drop 16) ((la + 16) % U64) (la / 65536)
      · next h =>
        simp only [elaBases]
        exact List.chain'_cons.mpr ⟨h, ih ((b :: rest).drop 16) ((la + 16) % U64) (la / 65536)⟩

/-- C1 counterexample: in a run over two consecutive eligible sections whose
lines all lie in 64KiB bank 0 (addresses 0 and 16), the encoder emits the
Extended Linear Address record for bank 0 twice, so the run's list of
emitted bank values `[0, 0]` repeats while the bank stays unchanged,
contradicting the claim that the remembered bank persists across sections
and the record is emitted exactly once per distinct bank transition. -/
theorem C1_bank_reemitted_counterexample :
    copyIntelHex (some [plainSection "a" 0 [1], plainSection "b" 16 [2]]) =
      CopyResult.committed [HexLine.comment "a" 0, HexLine.ela 0 250,
        HexLine.data 1 0 [1] 254,
        HexLine.comment "b" 16, HexLine.ela 0 250, HexLine.data 1 16 [2] 237]
  ∧ ¬ List.Chain' (· ≠ ·) (elaBases
      [HexLine.comment "a" 0, HexLine.ela 0 250, HexLine.data 1 0 [1] 254,
       HexLine.comment "b" 16, HexLine.ela 0 250, HexLine.data 1 16 [2] 237]) := by
  exact ⟨by decide, fun h => (List.chain'_cons.mp h).1 rfl⟩

/-- C1 amended: `LastBaseAddr` is a local of `PrintSection`, reinitialized to
the `UINT64_MAX` sentinel for every section; hence (1) within any single
section's encoding an Extended Linear Address record is emitted exactly at
bank changes (consecutive emitted bank values always differ), and (2) an
Intel HEX run over two eligible sections is the plain concatenation of two
independent `PrintSection` encodings, with no bank state carried from one
section to the next. -/
theorem C1_bank_state_per_section :
    (∀ (name : String) (contents : List Nat) (sa : Nat),
        List.Chain' (· ≠ ·) (elaBases (intelHexPrint name contents sa)))
  ∧ (∀ (n1 n2 : String) (a1 a2 : Nat) (c1 c2 : List Nat),
      c1 ≠ [] → c2 ≠ [] → a1 < U64 → a2 < U64 →
      copyIntelHex (some [plainSection n1 a1 c1, plainSection n2 a2 c2]) =
        CopyResult.committed (intelHexPrint n1 c1 a1 ++ intelHexPrint n2 c2 a2)) := by
  constructor
  · intro name contents sa
    have h := ihxLoop_elaBases_chain contents.length contents (sa % U64) (U64 - 1)
    simpa only [intelHexPrint, elaBases] using h.tail
  · intro n1 n2 a1 a2 c1 c2 h1 h2 ha1 ha2
    have hc1 : (c1.length == 0) = false := by
      simpa [List.length_eq_zero] using h1
    have hc2 : (c2.length == 0) = false := by
      simpa [List.length_eq_zero] using h2
    simp [copyIntelHex, CopyTo, copyLoop, plainSection, selectorRejects, hc1, hc2,
      Nat.mod_eq_of_lt ha1, Nat.mod_eq_of_lt ha2]

/-- Witness for C1 at a concrete input: two eligible sections, in banks 0
and 1, encode as the concatenation of their independent encodings. -/
theorem C1_bank_state_per_section_witness :
    copyIntelHex (some [plainSection "a" 0 [1], plainSection "b" 65536 [2]]) =
      CopyResult.committed (intelHexPrint "a" [1] 0 ++ intelHexPrint "b" [2] 65536) :=
  C1_bank_state_per_section.2 "a" "b" 0 65536 [1] [2] (by decide) (by decide)
    (by decide) (by decide)

/-- C9: the first data record of every eligible (hence nonempty) section is
preceded by an Extended Linear Address record for the section's starting
bank, because `LastBaseAddr` is reinitialized to the `UINT64_MAX` sentinel
at the start of each `PrintSection` call: the encoding always begins with
the comment line, the bank record, then the first data record. -/
theorem C9_ela_at_section_start (name : String) (contents : List Nat) (sa : Nat)
    (h : contents ≠ []) :
    (intelHexPrint name contents sa).take 3 =
      [HexLine.comment name sa,
       HexLine.ela (sa % U64 / 65536) (elaChecksum (sa % U64 / 65536)),
       HexLine.data (min 16 contents.length) (sa % U64 % 65536)
         ((contents.take 16).map (· % 256))
         (dataChecksum (min 16 contents.length) (sa % U64) (contents.take 16))] := by
  cases contents with
  | nil => exact absurd rfl h
  | cons b bs =>
    have h64 : U64 = 18446744073709551616 := rfl
    have hmod : sa % U64 < U64 := Nat.mod_lt sa (by rw [h64]; omega)
    have hne : ¬ (U64 - 1 = sa % U64 / 65536) := by omega
    simp only [intelHexPrint, List.length_cons, ihxLoop, if_neg hne]
    rfl

/-- Witness for C9 at a concrete input: the single-byte section `[0xDE]` at
address 0x20000 (bank 2). -/
theorem C9_ela_at_section_start_witness :
    (intelHexPrint "s" [0xDE] 0x20000).take 3 =
      [HexLine.comment "s" 0x20000,
       HexLine.ela (0x20000 % U64 / 65536) (elaChecksum (0x20000 % U64 / 65536)),
       HexLine.data (min 16 ([0xDE] : List Nat).length) (0x20000 % U64 % 65536)
         ((([0xDE] : List Nat).take 16).map (· % 256))
         (dataChecksum (min 16 ([0xDE] : List Nat).length) (0x20000 % U64)
           (([0xDE] : List Nat).take 16))] :=
  C9_ela_at_section_start "s" [0xDE] 0x20000 (by decide)

/-- Helper: a section on which the loop executes `continue` contributes
nothing, for every encoder and every loop state. -/
theorem copyLoop_skip {α : Type} (pr : String → List Nat → Nat → List α)
    (fg : Nat → Nat → List α) (fl : Bool) (s : RawSection)
    (rest : List RawSection) (fng : Bool) (la : Nat)
    (h : sectionSkipped s = true) :
    copyLoop pr fg fl (s :: rest) fng la = copyLoop pr fg fl rest fng la := by
  obtain ⟨mn, mc, ma, mb, mr⟩ := s
  cases mn with
  | none => simp [sectionSkipped] at h
  | some n =>
    cases mc with
    | none => simp [sectionSkipped] at h
    | some c =>
      cases ma with
      | none => simp [sectionSkipped] at h
      | some a =>
        cases mb with
        | none => simp [copyLoop]
        | some bss =>
          cases mr with
          | none => simp [copyLoop]
          | some req =>
            have hsel : selectorRejects req bss c = true := by
              simpa [sectionSkipped] using h
            simp [copyLoop, hsel]

/-- C2 counterexample: a section with nonzero contents that is not BSS but
is not marked required-for-execution is skipped by the binary path too: the
binary copy of exactly that section commits an empty output instead of the
section's byte, so the required flag is checked in the binary path. -/
theorem C2_required_checked_counterexample :
    copyBinary (some [RawSection.mk (some "s") (some [171]) (some 0)
        (some false) (some false)]) = CopyResult.committed []
  ∧ copyBinary (some [RawSection.mk (some "s") (some [171]) (some 0)
        (some false) (some false)]) ≠ CopyResult.committed [171] := by
  exact ⟨by decide, by decide⟩

/-- C2 amended: there is a single selection path shared by all three output
formats (binary included): a section is skipped iff it is not
required-for-execution, or is BSS, or has empty contents; and a section
passing all three conditions is emitted. -/
theorem C2_single_selector {α : Type} (pr : String → List Nat → Nat → List α)
    (fg : Nat → Nat → List α) (fl : Bool) (n : String) (a : Nat) (c : List Nat)
    (bss req : Bool) (rest : List RawSection) (fng : Bool) (la : Nat) :
    (req = false ∨ bss = true ∨ c = [] →
      copyLoop pr fg fl
          (RawSection.mk (some n) (some c) (some a) (some bss) (some req) :: rest) fng la =
        copyLoop pr fg fl rest fng la)
  ∧ (req = true → bss = false → c ≠ [] → ∀ out,
      copyLoop pr fg fl rest fl (if fl = true then (a + c.length) % U64 else la) =
        Except.ok out →
      copyLoop pr fg fl
          (RawSection.mk (some n) (some c) (some a) (some bss) (some req) :: rest) false la =
        Except.ok (pr n c (a % U64) ++ out)) := by
  constructor
  · intro h
    apply copyLoop_skip
    rcases h with rfl | rfl | rfl <;> simp [sectionSkipped, selectorRejects]
  · intro hreq hbss hc out hout
    subst hreq; subst hbss
    have hc0 : (c.length == 0) = false := by simpa [List.length_eq_zero] using hc
    simp [copyLoop, selectorRejects, hc0, hout]

/-- Witness for C2 at a concrete input: in the binary path (`mFillGaps`
true), a non-BSS section with contents `[171]` but `Required = false` is
skipped exactly as if it were absent. -/
theorem C2_single_selector_witness :
    copyLoop binaryPrint binaryFillGap true
        [RawSection.mk (some "s") (some [171]) (some 0) (some false) (some false)] false 0 =
      copyLoop binaryPrint binaryFillGap true ([] : List RawSection) false 0 :=
  (C2_single_selector binaryPrint binaryFillGap true "s" 0 [171] false false [] false 0).1
    (Or.inl rfl)

/-- C4: in the binary copy, for an eligible section following a first
eligible section, if its load address is strictly below the running end
address the whole copy aborts with the ordering error, and if the gap
strictly exceeds 65536 bytes it aborts with the gap-too-large error; in both
cases the result is `aborted`, never `committed`. -/
theorem C4_gap_error_aborts (n1 n2 : String) (a1 a2 : Nat) (c1 c2 : List Nat)
    (rest : List RawSection) (h1 : c1 ≠ []) (h2 : c2 ≠ [])
    (hw : a1 + c1.length < U64) (ha2 : a2 < U64) :
    (a2 < a1 + c1.length →
      copyBinary (some (plainSection n1 a1 c1 :: plainSection n2 a2 c2 :: rest)) =
        CopyResult.aborted CopyError.gapOrderError)
  ∧ (a1 + c1.length ≤ a2 → 65536 < a2 - (a1 + c1.length) →
      copyBinary (some (plainSection n1 a1 c1 :: plainSection n2 a2 c2 :: rest)) =
        CopyResult.aborted CopyError.gapTooLargeError) := by
  have hc1 : (c1.length == 0) = false := by simpa [List.length_eq_zero] using h1
  have hc2 : (c2.length == 0) = false := by simpa [List.length_eq_zero] using h2
  have ha1 : a1 < U64 := by
    have : 0 < c1.length := List.length_pos.mpr h1
    omega
  constructor
  · intro hlt
    simp [copyBinary, CopyTo, copyLoop, plainSection, selectorRejects, hc1, hc2,
      Nat.mod_eq_of_lt ha1, Nat.mod_eq_of_lt ha2, Nat.mod_eq_of_lt hw, hlt]
  · intro hge hgap
    have hnlt : ¬ a2 < a1 + c1.length := by omega
    have hne : ¬ a2 = a1 + c1.length := by omega
    simp [copyBinary, CopyTo, copyLoop, plainSection, selectorRejects, hc1, hc2,
      Nat.mod_eq_of_lt ha1, Nat.mod_eq_of_lt ha2, Nat.mod_eq_of_lt hw, hnlt, hne, hgap]

/-- Witness for C4 at concrete inputs: a second section overlapping the
first aborts with the ordering error, and a second section 70000 bytes past
the first's end aborts with the gap-too-large error. -/
theorem C4_gap_error_aborts_witness :
    (copyBinary (some [plainSection "a" 16 [1, 2], plainSection "b" 0 [3]]) =
      CopyResult.aborted CopyError.gapOrderError)
  ∧ (copyBinary (some [plainSection "a" 0 [1, 2], plainSection "b" 70002 [3]]) =
      CopyResult.aborted CopyError.gapTooLargeError) :=
  ⟨(C4_gap_error_aborts "a" "b" 16 0 [1, 2] [3] [] (by decide) (by decide) (by decide)
      (by decide)).1 (by decide),
   (C4_gap_error_aborts "a" "b" 0 70002 [1, 2] [3] [] (by decide) (by decide) (by decide)
      (by decide)).2 (by decide) (by decide)⟩

/-- Reducing byte values modulo 256 is the identity on lists of bytes. -/
theorem mapMod_eq_self (bs : List Nat) (h : ∀ b ∈ bs, b < 256) :
    bs.map (· % 256) = bs := by
  induction bs with
  | nil => rfl
  | cons b rest ih =>
    simp only [List.map_cons, List.cons.injEq]
    exact ⟨Nat.mod_eq_of_lt (h b (List.mem_cons_self b rest)),
      ih fun x hx => h x (List.mem_cons_of_mem b hx)⟩

/-- The length of the expected binary image is the sum of the section
lengths plus the sum of the computed gaps. -/
theorem layoutFrom_length :
    ∀ (la : Nat) (ss : List (String × Nat × List Nat)),
      (layoutFrom la ss).length = totalLen la ss := by
  intro la ss
  induction ss generalizing la with
  | nil => rfl
  | cons t rest ih =>
    obtain ⟨n, a, bs⟩ := t
    simp only [layoutFrom, totalLen, List.length_append, List.length_replicate, ih]

/-- With `FillNextGap` already active, the binary loop over well-spaced
eligible sections emits the gap filler and the section bytes of each section
in order and succeeds. -/
theorem copyLoop_binary_layout :
    ∀ (ss : List (String × Nat × List Nat)) (la : Nat), okSpaced la ss = true →
      copyLoop binaryPrint binaryFillGap true
          (ss.map fun t => plainSection t.1 t.2.1 t.2.2) true la =
        Except.ok (layoutFrom la ss) := by
  intro ss
  induction ss with
  | nil => intro la _; rfl
  | cons t rest ih =>
    obtain ⟨n, a, bs⟩ := t
    intro la h
    simp only [okSpaced, Bool.and_eq_true, decide_eq_true_eq] at h
    obtain ⟨⟨⟨⟨⟨hbs, hla⟩, hgap⟩, hfit⟩, hb⟩, hrest⟩ := h
    have hc0 : (bs.length == 0) = false := by simpa [List.length_eq_zero] using hbs
    have ha : a < U64 := by
      have : 0 < bs.length := List.length_pos.mpr hbs
      omega
    have hnlt : ¬ (a < la) := by omega
    have hmap := mapMod_eq_self bs hb
    have ihr := ih (a + bs.length) hrest
    simp only [plainSection] at ihr
    by_cases heq : a = la
    · subst heq
      simp [copyLoop, plainSection, selectorRejects, hc0, Nat.mod_eq_of_lt ha,
        Nat.mod_eq_of_lt hfit, ihr, layoutFrom, binaryPrint, hmap]
    · have hgap2 : ¬ (a - la > 65536) := by omega
      simp [copyLoop, plainSection, selectorRejects, hc0, Nat.mod_eq_of_lt ha, hnlt, heq,
        hgap2, Nat.mod_eq_of_lt hfit, ihr, layoutFrom, binaryPrint, binaryFillGap,
        hmap]

/-- C5: for the binary format over eligible sections at non-decreasing load
addresses with every gap at most 65536 bytes, the committed output is the
concatenation of the sections' raw contents with exactly
`sectionAddress - lastAddress` zero filler bytes before every section after
the first (the running end address after each section being
`sectionAddress + contentsLength`), and the output length is the sum of the
section lengths plus the sum of the computed gaps. -/
theorem C5_binary_concatenation (n : String) (a : Nat) (bs : List Nat)
    (rest : List (String × Nat × List Nat))
    (hbs : bs ≠ []) (hb : ∀ b ∈ bs, b < 256) (hfit : a + bs.length < U64)
    (hrest : okSpaced (a + bs.length) rest = true) :
    copyBinary (some (((n, a, bs) :: rest).map fun t => plainSection t.1 t.2.1 t.2.2)) =
      CopyResult.committed (bs ++ layoutFrom (a + bs.length) rest)
  ∧ ∀ (la : Nat) (ss : List (String × Nat × List Nat)),
      (layoutFrom la ss).length = totalLen la ss := by
  refine ⟨?_, layoutFrom_length⟩
  have hc0 : (bs.length == 0) = false := by simpa [List.length_eq_zero] using hbs
  have ha : a < U64 := by
    have : 0 < bs.length := List.length_pos.mpr hbs
    omega
  have hmap := mapMod_eq_self bs hb
  have hloop := copyLoop_binary_layout rest (a + bs.length) hrest
  simp only [plainSection] at hloop
  simp [copyBinary, CopyTo, copyLoop, plainSection, selectorRejects, hc0,
    Nat.mod_eq_of_lt ha, Nat.mod_eq_of_lt hfit, hloop, binaryPrint, hmap]

/-- Witness for C5 at a concrete input: sections `[1, 2]` at address 0 and
`[3]` at address 10, giving an 8-byte zero gap. -/
theorem C5_binary_concatenation_witness :
    copyBinary (some (([("a", 0, [1, 2]), ("b", 10, [3])] :
          List (String × Nat × List Nat)).map fun t => plainSection t.1 t.2.1 t.2.2)) =
      CopyResult.committed ([1, 2] ++ layoutFrom 2 [("b", 10, [3])])
  ∧ ∀ (la : Nat) (ss : List (String × Nat × List Nat)),
      (layoutFrom la ss).length = totalLen la ss :=
  C5_binary_concatenation "a" 0 [1, 2] [("b", 10, [3])] (by decide) (by decide)
    (by decide) (by decide)

/-- C7: a failed read of a section's name, contents, or load address makes
the whole copy loop fail immediately with the fatal read error (so the
destination is not committed), whereas a failed read of `isBSS` or of
`isRequiredForExecution` only skips that section and the loop continues with
the next section unchanged. -/
theorem C7_fatal_vs_skip {α : Type} (pr : String → List Nat → Nat → List α)
    (fg : Nat → Nat → List α) (fl : Bool) (s : RawSection)
    (rest : List RawSection) (fng : Bool) (la : Nat) :
    ((s.getName = none ∨ s.getContents = none ∨ s.getAddress = none) →
      copyLoop pr fg fl (s :: rest) fng la = Except.error CopyError.sectionReadError)
  ∧ (s.getName.isSome = true → s.getContents.isSome = true →
      s.getAddress.isSome = true →
      (s.isBSS = none ∨ s.isBSS.isSome = true ∧ s.isRequiredForExecution = none) →
      copyLoop pr fg fl (s :: rest) fng la = copyLoop pr fg fl rest fng la) := by
  obtain ⟨mn, mc, ma, mb, mr⟩ := s
  constructor
  · intro h
    cases mn with
    | none => simp [copyLoop]
    | some n =>
      cases mc with
      | none => simp [copyLoop]
      | some c =>
        cases ma with
        | none => simp [copyLoop]
        | some a => simp at h
  · intro h1 h2 h3 h4
    cases mn with
    | none => simp at h1
    | some n =>
      cases mc with
      | none => simp at h2
      | some c =>
        cases ma with
        | none => simp at h3
        | some a =>
          rcases h4 with h4 | ⟨hb4, h4⟩
          · have hmb : mb = none := h4
            subst hmb
            simp [copyLoop]
          · have hmr : mr = none := h4
            subst hmr
            cases mb with
            | none => simp at hb4
            | some bss => simp [copyLoop]

/-- Witness for C7 at concrete inputs: a section with an unreadable name
aborts the copy fatally, while a section with an unreadable `isBSS` flag is
merely skipped. -/
theorem C7_fatal_vs_skip_witness :
    (copyLoop binaryPrint binaryFillGap true
        [RawSection.mk none (some [1]) (some 0) (some false) (some true)] false 0 =
      Except.error CopyError.sectionReadError)
  ∧ (copyLoop binaryPrint binaryFillGap true
        [RawSection.mk (some "s") (some [1]) (some 0) none (some true)] false 0 =
      copyLoop binaryPrint binaryFillGap true ([] : List RawSection) false 0) :=
  ⟨(C7_fatal_vs_skip binaryPrint binaryFillGap true
      (RawSection.mk none (some [1]) (some 0) (some false) (some true)) [] false 0).1
      (Or.inl rfl),
   (C7_fatal_vs_skip binaryPrint binaryFillGap true
      (RawSection.mk (some "s") (some [1]) (some 0) none (some true)) [] false 0).2
      rfl rfl rfl (Or.inl rfl)⟩

/-- Helper: if every section of the input is skipped by the loop, the loop
writes nothing and succeeds. -/
theorem copyLoop_all_skipped {α : Type} (pr : String → List Nat → Nat → List α)
    (fg : Nat → Nat → List α) (fl : Bool) :
    ∀ (ss : List RawSection), (∀ s ∈ ss, sectionSkipped s = true) →
      ∀ (fng : Bool) (la : Nat), copyLoop pr fg fl ss fng la = Except.ok [] := by
  intro ss
  induction ss with
  | nil => intro _ fng la; rfl
  | cons s rest ih =>
    intro h fng la
    rw [copyLoop_skip pr fg fl s rest fng la (h s (List.mem_cons_self s rest))]
    exact ih (fun x hx => h x (List.mem_cons_of_mem s hx)) fng la

/-- C10: a recognized object whose sections are all ineligible (every
section is skipped, for example empty or BSS) still copies successfully:
the loop writes nothing and the destination is committed as an empty
output, for every output format. -/
theorem C10_no_eligible_sections_commit {α : Type}
    (pr : String → List Nat → Nat → List α) (fg : Nat → Nat → List α) (fl : Bool)
    (ss : List RawSection) (h : ∀ s ∈ ss, sectionSkipped s = true) :
    CopyTo pr fg fl (some ss) = CopyResult.committed [] := by
  simp [CopyTo, copyLoop_all_skipped pr fg fl ss h false 0]

/-- Witness for C10 at a concrete input: one empty section and one BSS
section, binary format: the copy commits a zero-byte output. -/
theorem C10_no_eligible_sections_commit_witness :
    CopyTo binaryPrint binaryFillGap true
        (some [RawSection.mk (some "empty") (some []) (some 0) (some false) (some true),
               RawSection.mk (some "bss") (some [1]) (some 4) (some true) (some true)]) =
      CopyResult.committed [] :=
  C10_no_eligible_sections_commit binaryPrint binaryFillGap true
    [RawSection.mk (some "empty") (some []) (some 0) (some false) (some true),
     RawSection.mk (some "bss") (some [1]) (some 4) (some true) (some true)]
    (by decide)

/-- C6 counterexample: when the input exists and opens but is not a
recognized object file, `main` prints the diagnostic and falls through to
`return 0`, so the exit code is 0, not 1 as the claim states. -/
theorem C6_exit_code_counterexample :
    (mainExit "input.o" true true false).1 = 0
  ∧ (mainExit "input.o" true true false).1 ≠ 1 := by
  exact ⟨by decide, by decide⟩

/-- C6 amended: the exit code is 1 exactly when the input path is missing
(and is not the stdin sentinel `"-"`) or opening/parsing the input fails;
an unrecognized object file produces a diagnostic but exit code 0, and in
every remaining case the exit code is 0 as well. -/
theorem C6_exit_codes (nameStr : String) (ex op obj : Bool) :
    (mainExit nameStr ex op obj).1 =
      (if (nameStr ≠ "-" ∧ ex = false) ∨ op = false then 1 else 0)
  ∧ ((mainExit nameStr ex op obj).2 = true ↔
      (nameStr ≠ "-" ∧ ex = false) ∨ op = false ∨ obj = false) := by
  by_cases hn : nameStr = "-" <;> cases ex <;> cases op <;> cases obj <;>
    simp [mainExit, hn, bne_iff_ne]

/-- Helper: the per-byte loop of the readmemh encoder is the concatenation
of one two-digit line per byte. -/
theorem readMemHBody_eq : ∀ l : List Nat,
    readMemHBody l = (l.map fun b => byteHex b ++ "\n").foldr (· ++ ·) "" := by
  intro l
  induction l with
  | nil => rfl
  | cons b rest ih => simp [readMemHBody, ih]

/-- C8: each readmemh section is one `@`-marker line with the address in
minimal-width lowercase hex followed by one line per content byte of
exactly two lowercase hex digits; in particular contents `[0xDE, 0xAD]` at
address 0x100 produce exactly the text `"@100\nde\nad\n"`. -/
theorem C8_readmemh_format :
    readMemHPrint "sec" [222, 173] 256 = "@100\nde\nad\n"
  ∧ (∀ (nm : String) (contents : List Nat) (sa : Nat),
      readMemHPrint nm contents sa =
        "@" ++ String.mk (Nat.toDigits 16 (sa % U64)) ++ "\n" ++
          (contents.map fun b => byteHex b ++ "\n").foldr (· ++ ·) "")
  ∧ ∀ b : Nat, (byteHex b).length = 2 := by
  refine ⟨by decide, ?_, fun b => rfl⟩
  intro nm contents sa
  simp [readMemHPrint, readMemHBody_eq]
